import Mathlib

/-!
Verification of the ForgeSense furnace-analytics core: shallow embedding of
the metric-derivation and insight-generation pipeline (complete_analyzer,
accurate_analyzer, fixed_analyzer, capacity_calculator and the insight
engines) over exact rationals, with pandas missing-value and IEEE-special
behaviour modelled explicitly where it matters.
-/

namespace ForgeSense

/-- Pandas float cell outcome: a finite value, ±infinity, or NaN (missing). -/
inductive PFloat where
  | fin (q : ℚ)
  | pinf
  | ninf
  | nan
deriving DecidableEq, Repr

/-- Pandas elementwise division of two float cells: a missing (NaN) operand
gives NaN, a zero denominator gives ±inf (or NaN for 0/0), otherwise the
exact quotient. -/
def pandasDiv (c q : Option ℚ) : PFloat :=
  match c, q with
  | none, _ => PFloat.nan
  | _, none => PFloat.nan
  | some c, some q =>
    if q = 0 then
      if c = 0 then PFloat.nan
      else if 0 < c then PFloat.pinf
      else PFloat.ninf
    else PFloat.fin (c / q)

/-- complete_analyzer.py `_calculate_metrics`, line 86:
`df_calc['Cost_per_Ton'] = df_calc['Total Cost PLC'] / df_calc['Actual Production Qty']`
— an unguarded elementwise pandas division. -/
def costPerTonComplete (totalCost productionQty : Option ℚ) : PFloat :=
  pandasDiv totalCost productionQty

/-- accurate_analyzer.py `_analyze_data`, lines 61-67: `Cost_per_Ton_Accurate`
is assigned only on the mask `Actual Production Qty > 0`; rows off the mask
(zero or missing quantity, and missing cost) stay absent. -/
def costPerTonAccurate (totalCost productionQty : Option ℚ) : Option ℚ :=
  match totalCost, productionQty with
  | some c, some q => if 0 < q then some (c / q) else none
  | _, _ => none

/-- comprehensive_insights.py `_generate_cost_insights`, line 154:
`if current_cost > target_cost * 1.15:` emits a severity-high cost insight. -/
def costHighComprehensive (target cost : ℚ) : Option String :=
  if cost > target * 1.15 then some ("high") else none

/-- insights_final.py `_generate_cost_insights`, line 64:
`if avg_cost > target_cost * 1.15:` emits a severity-high cost insight. -/
def costHighFinal (target cost : ℚ) : Option String :=
  if cost > target * 1.15 then some ("high") else none

/-- comprehensive_insights.py `_generate_recovery_insights`, line 230:
`if current_mn < target_mn - 5:` emits a severity-high MN recovery insight. -/
def mnRecoveryLowComprehensive (target current : ℚ) : Option String :=
  if current < target - 5 then some ("high") else none

/-- insights_final.py `_generate_recovery_insights`, line 173:
`if avg_recovery < target_value * 0.9:` emits a severity-high recovery insight. -/
def mnRecoveryLowFinal (target current : ℚ) : Option String :=
  if current < target * 0.9 then some ("high") else none

/-- Combine a head value with the maximum of the tail (absent for an empty
tail). -/
def maxOpt (x : ℚ) : Option ℚ → ℚ
  | none => x
  | some m => max x m

/-- Maximum of a pandas numeric column: `df[col].max()`, NaN (none) when the
column is empty. -/
def listMax : List ℚ → Option ℚ
  | [] => none
  | x :: xs => some (maxOpt x (listMax xs))

/-- The six columns touched by fixed_analyzer.py's unit-correction block
(`_clean_and_fix_data`, lines 46-84); none = column absent from the sheet. -/
structure RawCols where
  mnRecoveryPLC : Option (List ℚ)
  siRecoveryPLC : Option (List ℚ)
  mnRecoveryFeeding : Option (List ℚ)
  siRecoveryFeeding : Option (List ℚ)
  loadFactor : Option (List ℚ)
  recoveryLiquidMetal : Option (List ℚ)
deriving DecidableEq, Repr

/-- Unconditional `df[col] = df[col] * 100` applied to the four recovery
columns (fixed_analyzer.py lines 47-61). -/
def rescaleColumn (col : Option (List ℚ)) : Option (List ℚ) :=
  col.map (List.map (fun x => x * 100))

/-- Conditional rescale `if df[col].max() < thr: df[col] = df[col] * 100`
(fixed_analyzer.py lines 63-71); an empty column's max is NaN, and
`NaN < thr` is false, so it is left unchanged. -/
def rescaleIfMaxBelow (thr : ℚ) (col : Option (List ℚ)) : Option (List ℚ) :=
  match col with
  | none => none
  | some xs =>
    match listMax xs with
    | none => some xs
    | some m => if m < thr then some (xs.map (fun x => x * 100)) else some xs

/-- fixed_analyzer.py `_clean_and_fix_data` unit-correction section:
recovery fields ×100 unconditionally; Load Factor ×100 when the column max
is below 10; Recovery Liquid Metal ×100 when the column max is below 1. -/
def fixUnits (d : RawCols) : RawCols :=
  { mnRecoveryPLC := rescaleColumn d.mnRecoveryPLC
    siRecoveryPLC := rescaleColumn d.siRecoveryPLC
    mnRecoveryFeeding := rescaleColumn d.mnRecoveryFeeding
    siRecoveryFeeding := rescaleColumn d.siRecoveryFeeding
    loadFactor := rescaleIfMaxBelow 10 d.loadFactor
    recoveryLiquidMetal := rescaleIfMaxBelow 1 d.recoveryLiquidMetal }

/-- A record set whose MN Recovery PLC column already holds a percentage
value (80), exercising the unit-correction heuristic. -/
def c4Example : RawCols :=
  { mnRecoveryPLC := some [80]
    siRecoveryPLC := none
    mnRecoveryFeeding := none
    siRecoveryFeeding := none
    loadFactor := none
    recoveryLiquidMetal := none }

/-- One furnace-day cost observation: total cost and production quantity. -/
structure CostRec where
  cost : ℚ
  qty : ℚ
deriving DecidableEq, Repr

/-- Pandas `Series.mean()` for a fully valid column. -/
def meanList (l : List ℚ) : ℚ := l.sum / l.length

/-- complete_analyzer.py `_analyze_by_furnace`, line 252:
`avg_cost_per_ton = furnace_data['Cost_per_Ton'].mean()` — the arithmetic
mean of the per-record cost/qty ratios. -/
def avgCostPerTonComplete (rs : List CostRec) : ℚ :=
  meanList (rs.map (fun r => r.cost / r.qty))

/-- capacity_calculator.py `_calculate_all_metrics`, line 56:
`avg_cost_mt = furnace_data['Total Cost PLC'].sum() / furnace_data['Actual Production Qty'].sum()`
— group total cost over group total production. -/
def avgCostMtCapacity (rs : List CostRec) : ℚ :=
  (rs.map CostRec.cost).sum / (rs.map CostRec.qty).sum

/-- Two records of one furnace with very different production quantities. -/
def c5Example : List CostRec := [⟨100, 1⟩, ⟨100, 100⟩]

/-- Optimal and critical band of one quality parameter
(comprehensive_insights.py `_generate_quality_insights`, lines 279-284). -/
structure QualityBand where
  lo : ℚ
  hi : ℚ
  clo : ℚ
  chi : ℚ
deriving DecidableEq, Repr

/-- The four quality parameters with their optimal and critical bands. -/
def qualityBands : List (String × QualityBand) :=
  [(("Grade MN"), ⟨68, 72, 65, 75⟩),
   (("Grade SI"), ⟨16, 18, 15, 20⟩),
   (("C%"), ⟨6.5, 7.5, 6, 8⟩),
   (("Basicity"), ⟨1.3, 1.4, 1.2, 1.5⟩)]

/-- comprehensive_insights.py `_generate_quality_insights`, lines 286-317:
the deviation check runs only under `if current_value > 0`; outside the
optimal band it emits severity medium, raised to high outside the critical
band. Returns the severity of the emitted Finding, if any. -/
def qualityParamInsight (b : QualityBand) (v : ℚ) : Option String :=
  if 0 < v then
    if v < b.lo ∨ b.hi < v then
      some (if v < b.clo ∨ b.chi < v then ("high") else ("medium"))
    else none
  else none

/-- Per-record values of the columns read by the quality and performance
score computation (complete_analyzer.py `_calculate_metrics`, lines 102-173).
`costPerTon` and `yieldPct` are the derived columns computed earlier in the
same function. -/
structure MetricRow where
  gradeMN : ℚ
  gradeSI : ℚ
  cPct : ℚ
  basicity : ℚ
  costPerTon : ℚ
  specPower : ℚ
  mnRecPLC : ℚ
  yieldPct : ℚ
deriving DecidableEq, Repr

/-- Which of those columns are present in the DataFrame (each `if col in
df_calc.columns` test in `_calculate_metrics`). -/
structure ColsPresent where
  hasGradeMN : Bool
  hasGradeSI : Bool
  hasCPct : Bool
  hasBasicity : Bool
  hasCostPerTon : Bool
  hasSpecPower : Bool
  hasMnRecPLC : Bool
  hasYieldPct : Bool
deriving DecidableEq, Repr

/-- pandas `Series.clip(0, 100)`. -/
def clip0100 (x : ℚ) : ℚ := min (max x 0) 100

/-- complete_analyzer.py `_calculate_metrics`, lines 102-129: Quality_Score,
a weighted sum of per-parameter sub-scores, each `100 − |observed − target| ×
slope` clipped to [0,100], with weights 0.4 / 0.3 / 0.2 / 0.1; an absent
column contributes nothing. -/
def qualityScore (cp : ColsPresent) (r : MetricRow) : ℚ :=
  (if cp.hasGradeMN then clip0100 (100 - |r.gradeMN - 70| * 5) * 0.4 else 0) +
  (if cp.hasGradeSI then clip0100 (100 - |r.gradeSI - 17.5| * 10) * 0.3 else 0) +
  (if cp.hasCPct then clip0100 (100 - |r.cPct - 7| * 20) * 0.2 else 0) +
  (if cp.hasBasicity then clip0100 (100 - |r.basicity - 1.35| * 40) * 0.1 else 0)

/-- The accumulated `weights` variable of the Performance_Score block
(lines 131-171): a component's weight counts only when its column is present
(and, for cost/power, the column mean is positive). The Quality_Score column
is created unconditionally at line 129, so its 0.15 always counts. -/
def perfWeights (cp : ColsPresent) (costMean powerMean : ℚ) : ℚ :=
  (if cp.hasCostPerTon ∧ 0 < costMean then (0.3 : ℚ) else 0) +
  (if cp.hasSpecPower ∧ 0 < powerMean then (0.2 : ℚ) else 0) +
  (if cp.hasMnRecPLC then (0.2 : ℚ) else 0) +
  (if cp.hasYieldPct then (0.15 : ℚ) else 0) + 0.15

/-- The accumulated `performance_score` variable before normalization:
cost and power sub-scores are scored relative to the column mean and
clipped, recovery and yield are clipped directly, and the (already bounded)
Quality_Score enters unclipped with weight 0.15. -/
def perfNumerator (cp : ColsPresent) (costMean powerMean : ℚ) (r : MetricRow) : ℚ :=
  (if cp.hasCostPerTon ∧ 0 < costMean then
    clip0100 (100 - (r.costPerTon / costMean - 1) * 50) * 0.3 else 0) +
  (if cp.hasSpecPower ∧ 0 < powerMean then
    clip0100 (100 - (r.specPower / powerMean - 1) * 50) * 0.2 else 0) +
  (if cp.hasMnRecPLC then clip0100 r.mnRecPLC * 0.2 else 0) +
  (if cp.hasYieldPct then clip0100 r.yieldPct * 0.15 else 0) +
  qualityScore cp r * 0.15

/-- complete_analyzer.py line 171: `Performance_Score = performance_score /
weights` (the weights sum is always at least 0.15, so the division is live). -/
def performanceScore (cp : ColsPresent) (costMean powerMean : ℚ) (r : MetricRow) : ℚ :=
  perfNumerator cp costMean powerMean r / perfWeights cp costMean powerMean

/-- Combine a head value with the minimum of the tail (absent for an empty
tail). -/
def minOpt (x : ℚ) : Option ℚ → ℚ
  | none => x
  | some m => min x m

/-- Minimum of a pandas numeric column: `df[col].min()`, NaN (none) when the
column is empty. -/
def listMin : List ℚ → Option ℚ
  | [] => none
  | x :: xs => some (minOpt x (listMin xs))

/-- The furnaces named best and worst, and the gap percentage, of one
comparative benchmarking Finding. -/
structure CompFinding where
  best : String
  worst : String
  gapPct : ℚ
deriving DecidableEq, Repr

/-- Name of the first row whose metric value equals `v` — pandas
`idxmin`/`idxmax` return the first index attaining the extremum, and
`iloc[idx]['Furnace']` reads that row's furnace name. -/
def firstWithVal (l : List (String × ℚ)) (v : ℚ) : String :=
  match l with
  | [] => ""
  | p :: rest => if p.2 = v then p.1 else firstWithVal rest v

/-- comprehensive_insights.py `_generate_comparative_insights`, lines
458-505, specialized to one metric column: fewer than two furnaces emit
nothing; best/worst are idxmin/idxmax (swapped when higher is better); when
`best_value > 0` and `abs((worst - best) / best) * 100 > 20` a benchmarking
Finding naming both furnaces is emitted. -/
def comprehensiveComparative (lowerBetter : Bool) (l : List (String × ℚ)) :
    Option CompFinding :=
  if l.length < 2 then none
  else
    match listMin (l.map Prod.snd), listMax (l.map Prod.snd) with
    | some mn, some mx =>
      let bestV := if lowerBetter then mn else mx
      let worstV := if lowerBetter then mx else mn
      if 0 < bestV then
        if 20 < |(worstV - bestV) / bestV| * 100 then
          some ⟨firstWithVal l bestV, firstWithVal l worstV,
            |(worstV - bestV) / bestV| * 100⟩
        else none
      else none
    | _, _ => none

/-- insights_engine.py `_analyze_comparative`, lines 186-216 (cost branch):
fewer than two furnaces emit nothing; otherwise a Finding naming the idxmin
(best) and idxmax (worst) furnaces is emitted when
`worst > best * 1.1`, with gap `(worst - best) / best * 100`. -/
def engineCostComparative (l : List (String × ℚ)) : Option CompFinding :=
  if l.length < 2 then none
  else
    match listMin (l.map Prod.snd), listMax (l.map Prod.snd) with
    | some mn, some mx =>
      if mn * 1.1 < mx then
        some ⟨firstWithVal l mn, firstWithVal l mx, (mx - mn) / mn * 100⟩
      else none
    | _, _ => none

/-- Per-furnace cost means seen by insights_engine's cost comparison: F2 is
15% above F1. -/
def c8Engine : List (String × ℚ) := [(("F1"), 100), (("F2"), 115)]

/-- The fields of an insight dict that the critical-aggregation step of
advanced_insights.py `_categorize_insights` reads: `insight.get('severity')`,
`insight.get('furnace', 'General')` and `category`. -/
structure Insight where
  category : String
  severity : String
  furnace : Option String
deriving DecidableEq, Repr

/-- `insight.get('furnace', 'General')`. -/
def furnKey (i : Insight) : String := i.furnace.getD ("General")

/-- `insight.get('severity') == 'high'`. -/
def isHighSeverity (i : Insight) : Bool := decide (i.severity = ("high"))

/-- The furnace keys of the high-severity insights, in list order — the
insertion order of the `furnace_issues` dict. -/
def highKeys (l : List Insight) : List String :=
  (l.filter isHighSeverity).map furnKey

/-- Deduplicate, keeping first occurrences (Python dict key order). -/
def firstDedupAux : List String → List String → List String
  | [], _ => []
  | x :: xs, seen =>
    if x ∈ seen then firstDedupAux xs seen
    else x :: firstDedupAux xs (x :: seen)

/-- Deduplicate a key list keeping first occurrences. -/
def firstDedup (l : List String) : List String := firstDedupAux l []

/-- Number of high-severity insights grouped under furnace key `f`. -/
def countHighFor (l : List Insight) (f : String) : Nat :=
  ((l.filter isHighSeverity).filter (fun i => decide (furnKey i = f))).length

/-- The synthetic "Multiple Critical Issues" insight appended for furnace
`f` (advanced_insights.py lines 364-374): category critical, severity high. -/
def syntheticCritical (f : String) : Insight :=
  { category := ("critical"), severity := ("high"), furnace := some f }

/-- The decision for one furnace key of the `furnace_issues` dict:
`if len(issues) >= 2 and furnace != 'General'`, append the synthetic
critical insight. -/
def criticalFor (l : List Insight) (f : String) : Option Insight :=
  if f ≠ ("General") ∧ 2 ≤ countHighFor l f then some (syntheticCritical f)
  else none

/-- advanced_insights.py `_categorize_insights`, lines 352-374: for every
furnace key (in first-appearance order) with at least two high-severity
insights, other than the no-furnace bucket 'General', one synthetic critical
insight is appended. -/
def criticalAdditions (l : List Insight) : List Insight :=
  (firstDedup (highKeys l)).filterMap (criticalFor l)

/-- The insight list after the critical-aggregation step: the original
insights are kept and the synthetic critical insights are appended. -/
def categorizeInsights (l : List Insight) : List Insight :=
  l ++ criticalAdditions l

/-- Number of occurrences of insight `x` in `l`. -/
def countEq (l : List Insight) (x : Insight) : Nat :=
  (l.filter (fun y => decide (y = x))).length

/-- Operational availability, identical in complete_analyzer.py line 100,
accurate_analyzer.py line 94 and capacity_calculator.py line 76:
`((1440 - total_breakdown_mins) / 1440) * 100`, with no clamping. -/
def operationalAvailability (breakdownMins : ℚ) : ℚ :=
  ((1440 - breakdownMins) / 1440) * 100

/-- C1. The claim says cost_per_ton is absent whenever production quantity is
zero or missing, never an infinity; complete_analyzer's unguarded pandas
division instead yields +inf at a positive cost with zero quantity, while
accurate_analyzer's masked assignment leaves the metric absent as claimed. -/
theorem c1_cost_per_ton_zero_qty :
    costPerTonComplete (some 100000) (some 0) = PFloat.pinf ∧
    costPerTonAccurate (some 100000) (some 0) = none ∧
    (∀ c q : ℚ, 0 < q →
      costPerTonComplete (some c) (some q) = PFloat.fin (c / q) ∧
      costPerTonAccurate (some c) (some q) = some (c / q)) ∧
    (∀ c : ℚ, costPerTonComplete (some c) none = PFloat.nan ∧
      costPerTonAccurate (some c) none = none) := by
  refine ⟨by norm_num [costPerTonComplete, pandasDiv],
    by norm_num [costPerTonAccurate], ?_, ?_⟩
  · intro c q hq
    constructor
    · simp [costPerTonComplete, pandasDiv, ne_of_gt hq]
    · simp [costPerTonAccurate, hq]
  · intro c
    exact ⟨rfl, rfl⟩

/-- Witness for c1_cost_per_ton_zero_qty: evaluate both embeddings at a
concrete record with positive quantity. -/
theorem c1_cost_per_ton_zero_qty_witness :
    (0 : ℚ) < 50 ∧
    costPerTonComplete (some 100) (some 50) = PFloat.fin 2 ∧
    costPerTonAccurate (some 100) (some 50) = some 2 := by
  have h := c1_cost_per_ton_zero_qty.2.2.1 100 50 (by norm_num)
  refine ⟨by norm_num, ?_, ?_⟩
  · rw [h.1]; norm_num
  · rw [h.2]; norm_num

/-- C2. The cost_high rule (both in comprehensive_insights and in
insights_final) fires, with severity high, exactly when the furnace's average
cost per ton strictly exceeds target × 1.15; at exactly target × 1.15 no
insight is emitted, and the spec's pin-down pair (target 50000: 57500 versus
57505 = 50000 × 1.1501) behaves as claimed. -/
theorem c2_cost_high_boundary :
    (∀ t c : ℚ, (costHighComprehensive t c).isSome ↔ t * 1.15 < c) ∧
    (∀ t c : ℚ, (costHighFinal t c).isSome ↔ t * 1.15 < c) ∧
    (∀ t : ℚ, costHighComprehensive t (t * 1.15) = none) ∧
    (∀ t : ℚ, costHighFinal t (t * 1.15) = none) ∧
    costHighComprehensive 50000 57500 = none ∧
    costHighComprehensive 50000 57505 = some ("high") ∧
    costHighFinal 50000 57500 = none ∧
    costHighFinal 50000 57505 = some ("high") := by
  refine ⟨?_, ?_, ?_, ?_, ?_, ?_, ?_, ?_⟩
  · intro t c; simp [costHighComprehensive]
  · intro t c; simp [costHighFinal]
  · intro t; simp [costHighComprehensive]
  · intro t; simp [costHighFinal]
  · norm_num [costHighComprehensive]
  · norm_num [costHighComprehensive]
  · norm_num [costHighFinal]
  · norm_num [costHighFinal]

/-- C3 counterexample. At target 80 and observed recovery 73, the two cited
implementations of recovery_low (MN) disagree: comprehensive_insights
(`current < target - 5`) fires while insights_final (`current < target * 0.9`)
does not, and 73 is not below 80 × 0.90 — so the rule does not fire exactly
when recovery is below target × 0.90, and the two trigger conditions are not
equivalent. -/
theorem c3_recovery_triggers_disagree :
    mnRecoveryLowComprehensive 80 73 = some ("high") ∧
    mnRecoveryLowFinal 80 73 = none ∧
    ¬ ((73 : ℚ) < 80 * 0.9) := by
  refine ⟨by norm_num [mnRecoveryLowComprehensive], by norm_num [mnRecoveryLowFinal], by norm_num⟩

/-- C3 amended. comprehensive_insights fires (severity high) exactly when
target − current > 5, insights_final fires exactly when current < target × 0.90,
and the two trigger conditions select the same records for every observed
recovery precisely when target = 50. -/
theorem c3_recovery_trigger_amended :
    (∀ t c : ℚ, (mnRecoveryLowComprehensive t c).isSome ↔ c < t - 5) ∧
    (∀ t c : ℚ, (mnRecoveryLowFinal t c).isSome ↔ c < t * 0.9) ∧
    (∀ t : ℚ,
      (∀ c : ℚ, (mnRecoveryLowComprehensive t c).isSome ↔ (mnRecoveryLowFinal t c).isSome)
        ↔ t = 50) := by
  refine ⟨?_, ?_, ?_⟩
  · intro t c; simp [mnRecoveryLowComprehensive]
  · intro t c; simp [mnRecoveryLowFinal]
  · intro t
    constructor
    · intro h
      by_contra hne
      rcases lt_or_gt_of_ne (a := t - 5) (b := t * 0.9) (by intro heq; apply hne; linarith) with hlt | hgt
      · have h1 := (h (t - 5)).mpr (by simp [mnRecoveryLowFinal]; linarith)
        simp [mnRecoveryLowComprehensive] at h1
      · have h1 := (h (t * 0.9)).mp (by simp [mnRecoveryLowComprehensive]; linarith)
        simp [mnRecoveryLowFinal] at h1
    · intro h c
      subst h
      simp [mnRecoveryLowComprehensive, mnRecoveryLowFinal]
      norm_num

/-- C6 counterexample. At 2880 total breakdown minutes the availability is
−100, not 0: the code applies no clamping for inputs above 1440. -/
theorem c6_availability_not_clamped :
    operationalAvailability 2880 = -100 ∧ operationalAvailability 2880 < 0 := by
  constructor <;> norm_num [operationalAvailability]

/-- C6 amended. operational_availability equals (1440 − breakdown)/1440 × 100;
for breakdown minutes in [0,1440] it lies in [0,100], and for breakdown
minutes above 1440 it is strictly negative (no clamping is applied). -/
theorem c6_availability_range (b : ℚ) (hb : 0 ≤ b) :
    (b ≤ 1440 → 0 ≤ operationalAvailability b ∧ operationalAvailability b ≤ 100) ∧
    (1440 < b → operationalAvailability b < 0) := by
  constructor
  · intro hle
    unfold operationalAvailability
    constructor
    · have h1 : (0 : ℚ) ≤ 1440 - b := by linarith
      positivity
    · rw [div_mul_eq_mul_div, mul_comm, ← div_mul_eq_mul_div]
      nlinarith [hb]
  · intro hgt
    unfold operationalAvailability
    have h1 : 1440 - b < 0 := by linarith
    nlinarith

/-- Witness for c6_availability_range at the concrete input 2880. -/
theorem c6_availability_range_witness :
    (0 : ℚ) ≤ 2880 ∧ (1440 : ℚ) < 2880 ∧ operationalAvailability 2880 < 0 :=
  ⟨by norm_num, by norm_num,
    (c6_availability_range 2880 (by norm_num)).2 (by norm_num)⟩

theorem map_mul_mul (l : List ℚ) (a b : ℚ) :
    (l.map (fun x => x * a)).map (fun x => x * b) = l.map (fun x => x * (a * b)) := by
  induction l with
  | nil => rfl
  | cons x xs ih => simp [ih, mul_assoc]

theorem maxOpt_map_mul (x c : ℚ) (hc : 0 ≤ c) (o : Option ℚ) :
    maxOpt (x * c) (o.map (fun m => m * c)) = maxOpt x o * c := by
  cases o with
  | none => rfl
  | some m =>
    show max (x * c) (m * c) = max x m * c
    rcases le_total x m with hxm | hxm
    · rw [max_eq_right hxm, max_eq_right (mul_le_mul_of_nonneg_right hxm hc)]
    · rw [max_eq_left hxm, max_eq_left (mul_le_mul_of_nonneg_right hxm hc)]

theorem listMax_map_mul (xs : List ℚ) (c : ℚ) (hc : 0 ≤ c) :
    listMax (xs.map (fun x => x * c)) = (listMax xs).map (fun m => m * c) := by
  induction xs with
  | nil => rfl
  | cons x xs ih =>
    show some (maxOpt (x * c) (listMax (List.map (fun y => y * c) xs))) =
      some (maxOpt x (listMax xs) * c)
    rw [ih]
    exact congrArg some (maxOpt_map_mul x c hc (listMax xs))

/-- C4 counterexample. On a column already on the percentage scale
(MN Recovery PLC = [80]) the normalization still rescales — it is not
conditioned on the observed maximum — and applying it twice rescales again,
so it is not idempotent. -/
theorem c4_rescale_not_idempotent :
    (fixUnits c4Example).mnRecoveryPLC = some [8000] ∧
    (fixUnits (fixUnits c4Example)).mnRecoveryPLC = some [800000] ∧
    fixUnits (fixUnits c4Example) ≠ fixUnits c4Example := by
  refine ⟨by norm_num [fixUnits, c4Example, rescaleColumn], by norm_num [fixUnits, c4Example, rescaleColumn], ?_⟩
  intro h
  have h1 := congrArg RawCols.mnRecoveryPLC h
  norm_num [fixUnits, c4Example, rescaleColumn] at h1

/-- C4 amended. The recovery columns are multiplied by 100 unconditionally,
so a second application multiplies by 100 again (×10000 of raw in total);
only Load Factor is guarded by the observed column maximum (< 10), that
branch leaves a column with max ≥ 10 unchanged, and once the raw maximum is
at least 0.1 a second application of the whole step leaves Load Factor at
its once-corrected values. -/
theorem c4_rescale_amended :
    (∀ d : RawCols,
      (fixUnits d).mnRecoveryPLC = d.mnRecoveryPLC.map (List.map (fun x => x * 100)) ∧
      (fixUnits (fixUnits d)).mnRecoveryPLC = d.mnRecoveryPLC.map (List.map (fun x => x * 10000))) ∧
    (∀ (d : RawCols) (xs : List ℚ) (m : ℚ),
      d.loadFactor = some xs → listMax xs = some m →
      ((¬ m < 10 → (fixUnits d).loadFactor = some xs) ∧
       (1 / 10 ≤ m → m < 10 →
         (fixUnits (fixUnits d)).loadFactor = some (xs.map (fun x => x * 100))))) := by
  constructor
  · intro d
    constructor
    · rfl
    · show rescaleColumn (rescaleColumn d.mnRecoveryPLC) = _
      cases hcol : d.mnRecoveryPLC with
      | none => rfl
      | some l =>
        simp only [rescaleColumn, Option.map_some, map_mul_mul]
        norm_num
  · intro d xs m hlf hmax
    constructor
    · intro hnot
      show rescaleIfMaxBelow 10 d.loadFactor = some xs
      rw [hlf]
      simp [rescaleIfMaxBelow, hmax, hnot]
    · intro hge hlt
      have h1 : (fixUnits d).loadFactor = some (xs.map (fun x => x * 100)) := by
        show rescaleIfMaxBelow 10 d.loadFactor = _
        rw [hlf]
        simp [rescaleIfMaxBelow, hmax, hlt]
      show rescaleIfMaxBelow 10 (fixUnits d).loadFactor = _
      rw [h1]
      have h2 : listMax (xs.map (fun x => x * 100)) = some (m * 100) := by
        rw [listMax_map_mul xs 100 (by norm_num), hmax]
        rfl
      have h3 : ¬ m * 100 < 10 := by linarith
      simp [rescaleIfMaxBelow, h2, h3]

/-- Witness for c4_rescale_amended: a Load Factor column [5] (max 5 < 10) is
rescaled once to [500] and a second application leaves it there. -/
theorem c4_rescale_amended_witness :
    listMax [(5 : ℚ)] = some 5 ∧ (1 / 10 : ℚ) ≤ 5 ∧ (5 : ℚ) < 10 ∧
    (fixUnits (fixUnits (⟨none, none, none, none, some [5], none⟩ : RawCols))).loadFactor
      = some [500] := by
  have h := ((c4_rescale_amended.2 ⟨none, none, none, none, some [5], none⟩ [5] 5 rfl rfl).2
    (by norm_num) (by norm_num))
  refine ⟨rfl, by norm_num, by norm_num, ?_⟩
  rw [h]
  norm_num

/-- C5 counterexample. For a furnace with records (cost 100, qty 1) and
(cost 100, qty 100), complete_analyzer's mean-of-ratios gives 101/2 while
capacity_calculator's ratio-of-sums gives 200/101 — the modules do not all
compute the furnace-level average cost per ton the same way. -/
theorem c5_ratio_of_sums_divergence :
    avgCostPerTonComplete c5Example = 101 / 2 ∧
    avgCostMtCapacity c5Example = 200 / 101 ∧
    avgCostPerTonComplete c5Example ≠ avgCostMtCapacity c5Example := by
  refine ⟨?_, ?_, ?_⟩ <;>
    norm_num [avgCostPerTonComplete, avgCostMtCapacity, meanList, c5Example]

/-- C5 amended. complete_analyzer averages the per-record cost/qty ratios
while capacity_calculator divides total cost by total production; the two
coincide when every record of the furnace has the same (positive) production
quantity, and differ in general. -/
theorem c5_furnace_average_amended (rs : List CostRec) (q : ℚ) (hq : 0 < q)
    (hall : ∀ r ∈ rs, r.qty = q) :
    avgCostPerTonComplete rs = avgCostMtCapacity rs := by
  have hsum1 : ∀ l : List CostRec, (∀ r ∈ l, r.qty = q) →
      (l.map (fun r => r.cost / r.qty)).sum = (l.map CostRec.cost).sum / q := by
    intro l
    induction l with
    | nil => intro _; simp
    | cons r t ih =>
      intro h
      have hr : r.qty = q := h r (by simp)
      have ht := ih (fun x hx => h x (List.mem_cons_of_mem _ hx))
      simp only [List.map_cons, List.sum_cons, ht, hr, add_div]
  have hsum2 : ∀ l : List CostRec, (∀ r ∈ l, r.qty = q) →
      (l.map CostRec.qty).sum = l.length * q := by
    intro l
    induction l with
    | nil => intro _; simp
    | cons r t ih =>
      intro h
      have hr : r.qty = q := h r (by simp)
      have ht := ih (fun x hx => h x (List.mem_cons_of_mem _ hx))
      simp only [List.map_cons, List.sum_cons, ht, hr, List.length_cons]
      push_cast
      ring
  unfold avgCostPerTonComplete avgCostMtCapacity meanList
  rw [hsum1 rs hall, hsum2 rs hall, List.length_map, div_div]
  ring_nf

/-- Witness for c5_furnace_average_amended: two records with equal quantity 2. -/
theorem c5_furnace_average_amended_witness :
    (0 : ℚ) < 2 ∧
    avgCostPerTonComplete [⟨100, 2⟩, ⟨50, 2⟩] = avgCostMtCapacity [⟨100, 2⟩, ⟨50, 2⟩] := by
  refine ⟨by norm_num, c5_furnace_average_amended _ 2 (by norm_num) ?_⟩
  intro r hr
  simp only [List.mem_cons, List.mem_singleton] at hr
  rcases hr with rfl | rfl | h
  · rfl
  · rfl
  · simp at h

/-- C10. Each quality-parameter deviation check runs only when the furnace's
average value is strictly positive: a zero or missing (defaulted-to-0)
average yields no deviation Finding, even though 0 is below every optimal
band's lower edge; in general a Finding is emitted iff the value is positive
and outside the optimal band. -/
theorem c10_quality_positive_gate :
    (∀ p ∈ qualityBands, ∀ v : ℚ, v ≤ 0 → qualityParamInsight p.2 v = none) ∧
    (∀ p ∈ qualityBands, 0 < p.2.lo) ∧
    (∀ (b : QualityBand) (v : ℚ),
      (qualityParamInsight b v).isSome ↔ 0 < v ∧ (v < b.lo ∨ b.hi < v)) := by
  refine ⟨?_, ?_, ?_⟩
  · intro p _ v hv
    have hnot : ¬ 0 < v := not_lt.mpr hv
    simp [qualityParamInsight, hnot]
  · intro p hp
    fin_cases hp <;> norm_num [QualityBand.lo]
  · intro b v
    by_cases h1 : 0 < v <;> by_cases h2 : v < b.lo ∨ b.hi < v <;>
      simp [qualityParamInsight, h1, h2]

/-- Witness for c10_quality_positive_gate: Grade MN with the missing-data
default value 0 produces no quality Finding. -/
theorem c10_quality_positive_gate_witness :
    (0 : ℚ) ≤ 0 ∧ qualityParamInsight ⟨68, 72, 65, 75⟩ 0 = none :=
  ⟨le_rfl,
    c10_quality_positive_gate.1 (("Grade MN"), ⟨68, 72, 65, 75⟩)
      (by simp [qualityBands]) 0 le_rfl⟩

theorem clip0100_nonneg (x : ℚ) : 0 ≤ clip0100 x :=
  le_min (le_max_right x 0) (by norm_num)

theorem clip0100_le (x : ℚ) : clip0100 x ≤ 100 :=
  min_le_right _ _

theorem wscore_bounds (p : Prop) [Decidable p] (e w : ℚ) (hw : 0 ≤ w) :
    0 ≤ (if p then clip0100 e * w else 0) ∧
      (if p then clip0100 e * w else 0) ≤ 100 * (if p then w else 0) := by
  by_cases h : p
  · simp only [if_pos h]
    exact ⟨mul_nonneg (clip0100_nonneg e) hw,
      mul_le_mul_of_nonneg_right (clip0100_le e) hw⟩
  · simp [if_neg h]

theorem ite_weight_nonneg (p : Prop) [Decidable p] (w : ℚ) (hw : 0 ≤ w) :
    0 ≤ (if p then w else 0) := by
  by_cases h : p <;> simp [h, hw]

theorem ite_weight_le (p : Prop) [Decidable p] (w : ℚ) (hw : 0 ≤ w) :
    (if p then w else 0) ≤ w := by
  by_cases h : p <;> simp [h, hw]

theorem qualityScore_bounds (cp : ColsPresent) (r : MetricRow) :
    0 ≤ qualityScore cp r ∧ qualityScore cp r ≤ 100 := by
  have h1 := wscore_bounds (cp.hasGradeMN = true) (100 - |r.gradeMN - 70| * 5) 0.4 (by norm_num)
  have h2 := wscore_bounds (cp.hasGradeSI = true) (100 - |r.gradeSI - 17.5| * 10) 0.3 (by norm_num)
  have h3 := wscore_bounds (cp.hasCPct = true) (100 - |r.cPct - 7| * 20) 0.2 (by norm_num)
  have h4 := wscore_bounds (cp.hasBasicity = true) (100 - |r.basicity - 1.35| * 40) 0.1 (by norm_num)
  have w1 := ite_weight_le (cp.hasGradeMN = true) (0.4 : ℚ) (by norm_num)
  have w2 := ite_weight_le (cp.hasGradeSI = true) (0.3 : ℚ) (by norm_num)
  have w3 := ite_weight_le (cp.hasCPct = true) (0.2 : ℚ) (by norm_num)
  have w4 := ite_weight_le (cp.hasBasicity = true) (0.1 : ℚ) (by norm_num)
  unfold qualityScore
  constructor
  · linarith [h1.1, h2.1, h3.1, h4.1]
  · linarith [h1.2, h2.2, h3.2, h4.2, w1, w2, w3, w4]

theorem perfWeights_pos (cp : ColsPresent) (cm pm : ℚ) :
    0 < perfWeights cp cm pm := by
  have h1 := ite_weight_nonneg (cp.hasCostPerTon = true ∧ 0 < cm) (0.3 : ℚ) (by norm_num)
  have h2 := ite_weight_nonneg (cp.hasSpecPower = true ∧ 0 < pm) (0.2 : ℚ) (by norm_num)
  have h3 := ite_weight_nonneg (cp.hasMnRecPLC = true) (0.2 : ℚ) (by norm_num)
  have h4 := ite_weight_nonneg (cp.hasYieldPct = true) (0.15 : ℚ) (by norm_num)
  unfold perfWeights
  linarith

theorem perfNumerator_bounds (cp : ColsPresent) (cm pm : ℚ) (r : MetricRow) :
    0 ≤ perfNumerator cp cm pm r ∧
      perfNumerator cp cm pm r ≤ 100 * perfWeights cp cm pm := by
  have h1 := wscore_bounds (cp.hasCostPerTon = true ∧ 0 < cm)
    (100 - (r.costPerTon / cm - 1) * 50) 0.3 (by norm_num)
  have h2 := wscore_bounds (cp.hasSpecPower = true ∧ 0 < pm)
    (100 - (r.specPower / pm - 1) * 50) 0.2 (by norm_num)
  have h3 := wscore_bounds (cp.hasMnRecPLC = true) r.mnRecPLC 0.2 (by norm_num)
  have h4 := wscore_bounds (cp.hasYieldPct = true) r.yieldPct 0.15 (by norm_num)
  have hq := qualityScore_bounds cp r
  unfold perfNumerator perfWeights
  constructor
  · have : (0 : ℚ) ≤ qualityScore cp r * 0.15 := by nlinarith [hq.1]
    linarith [h1.1, h2.1, h3.1, h4.1]
  · have : qualityScore cp r * 0.15 ≤ 100 * 0.15 := by nlinarith [hq.2]
    linarith [h1.2, h2.2, h3.2, h4.2]

/-- C7. For every record and every subset of present columns (and any column
means), the derived Quality_Score and Performance_Score both lie in [0,100]:
the quality score is a weighted sum of clipped sub-scores with weights
0.4/0.3/0.2/0.1, and the performance score is a weighted blend of clipped
sub-scores divided by the sum of the weights actually accumulated. -/
theorem c7_scores_bounded (cp : ColsPresent) (cm pm : ℚ) (r : MetricRow) :
    0 ≤ qualityScore cp r ∧ qualityScore cp r ≤ 100 ∧
      0 ≤ performanceScore cp cm pm r ∧ performanceScore cp cm pm r ≤ 100 := by
  obtain ⟨hq0, hq1⟩ := qualityScore_bounds cp r
  obtain ⟨hn0, hn1⟩ := perfNumerator_bounds cp cm pm r
  have hw := perfWeights_pos cp cm pm
  refine ⟨hq0, hq1, ?_, ?_⟩
  · exact div_nonneg hn0 (le_of_lt hw)
  · rw [performanceScore, div_le_iff₀ hw]
    linarith

theorem listMin_mem (l : List ℚ) (m : ℚ) (h : listMin l = some m) : m ∈ l := by
  induction l generalizing m with
  | nil => simp [listMin] at h
  | cons x xs ih =>
    have hx : m = minOpt x (listMin xs) := by
      have := h
      simp only [listMin, Option.some_inj] at this
      exact this.symm
    cases hs : listMin xs with
    | none =>
      rw [hs] at hx
      simp [minOpt] at hx
      simp [hx]
    | some m2 =>
      rw [hs] at hx
      simp only [minOpt] at hx
      rcases le_total x m2 with hle | hle
      · rw [min_eq_left hle] at hx
        simp [hx]
      · rw [min_eq_right hle] at hx
        subst hx
        exact List.mem_cons_of_mem x (ih _ hs)

theorem listMax_mem (l : List ℚ) (m : ℚ) (h : listMax l = some m) : m ∈ l := by
  induction l generalizing m with
  | nil => simp [listMax] at h
  | cons x xs ih =>
    have hx : m = maxOpt x (listMax xs) := by
      have := h
      simp only [listMax, Option.some_inj] at this
      exact this.symm
    cases hs : listMax xs with
    | none =>
      rw [hs] at hx
      simp [maxOpt] at hx
      simp [hx]
    | some m2 =>
      rw [hs] at hx
      simp only [maxOpt] at hx
      rcases le_total x m2 with hle | hle
      · rw [max_eq_right hle] at hx
        subst hx
        exact List.mem_cons_of_mem x (ih _ hs)
      · rw [max_eq_left hle] at hx
        simp [hx]

theorem firstWithVal_spec (l : List (String × ℚ)) (v : ℚ)
    (hv : v ∈ l.map Prod.snd) :
    ∃ p, p ∈ l ∧ p.2 = v ∧ firstWithVal l v = p.1 := by
  induction l with
  | nil => simp at hv
  | cons q rest ih =>
    by_cases h : q.2 = v
    · exact ⟨q, List.mem_cons_self q rest, h, by simp [firstWithVal, h]⟩
    · have hv2 : v ∈ rest.map Prod.snd := by
        have hv3 : v ∈ q.2 :: rest.map Prod.snd := hv
        rcases List.mem_cons.mp hv3 with heq | hmem
        · exact absurd heq.symm h
        · exact hmem
      obtain ⟨p, hp, hpv, hpn⟩ := ih hv2
      exact ⟨p, List.mem_cons_of_mem q hp, hpv, by simp [firstWithVal, h, hpn]⟩

theorem comprehensiveComparative_eq (lower : Bool) (l : List (String × ℚ))
    (mn mx : ℚ) (hmn : listMin (l.map Prod.snd) = some mn)
    (hmx : listMax (l.map Prod.snd) = some mx) (h2 : 2 ≤ l.length) :
    comprehensiveComparative lower l =
      (if 0 < (if lower then mn else mx) then
        if 20 < |((if lower then mx else mn) - (if lower then mn else mx)) /
            (if lower then mn else mx)| * 100 then
          some ⟨firstWithVal l (if lower then mn else mx),
            firstWithVal l (if lower then mx else mn),
            |((if lower then mx else mn) - (if lower then mn else mx)) /
              (if lower then mn else mx)| * 100⟩
        else none
      else none) := by
  unfold comprehensiveComparative
  rw [if_neg (by omega : ¬ l.length < 2)]
  rw [hmn, hmx]

theorem engineCostComparative_eq (l : List (String × ℚ)) (mn mx : ℚ)
    (hmn : listMin (l.map Prod.snd) = some mn)
    (hmx : listMax (l.map Prod.snd) = some mx) (h2 : 2 ≤ l.length) :
    engineCostComparative l =
      (if mn * 1.1 < mx then
        some ⟨firstWithVal l mn, firstWithVal l mx, (mx - mn) / mn * 100⟩
      else none) := by
  unfold engineCostComparative
  rw [if_neg (by omega : ¬ l.length < 2)]
  rw [hmn, hmx]

/-- C8 counterexample. With per-furnace average costs F1 = 100 and F2 = 115
the relative gap is 15%, not above 20%, yet insights_engine's cost
comparison emits a benchmarking Finding (its threshold is
`worst > best × 1.1`) — so a Finding is not emitted exactly when the gap
exceeds 20 percent. -/
theorem c8_gap_threshold_counterexample :
    engineCostComparative c8Engine =
      some ⟨("F1"), ("F2"), 15⟩ ∧ ¬ (20 : ℚ) < 15 := by
  have hmn : listMin (c8Engine.map Prod.snd) = some 100 := by
    norm_num [c8Engine, listMin, minOpt, min_def]
  have hmx : listMax (c8Engine.map Prod.snd) = some 115 := by
    norm_num [c8Engine, listMax, maxOpt, max_def]
  rw [engineCostComparative_eq _ _ _ hmn hmx (by norm_num [c8Engine]),
    if_pos (by norm_num)]
  constructor
  · norm_num [firstWithVal, c8Engine]
  · norm_num

/-- C8 amended. With a single furnace neither module emits a comparative
Finding. comprehensive_insights emits one iff there are at least two
furnaces, the best value is positive and |worst − best|/best × 100 exceeds
20 — and such a Finding never names the same furnace as both best and
worst. insights_engine's cost comparison instead emits iff
worst > best × 1.1 (a 10% threshold) with no positive-best guard, and with
equal negative cost means it names the same furnace as both best and worst
(idxmin = idxmax while −10 > −10 × 1.1). -/
theorem c8_comparative_amended :
    (∀ (lower : Bool) (p : String × ℚ),
      comprehensiveComparative lower [p] = none ∧ engineCostComparative [p] = none) ∧
    (∀ (lower : Bool) (l : List (String × ℚ)) (mn mx : ℚ),
      listMin (l.map Prod.snd) = some mn → listMax (l.map Prod.snd) = some mx →
      ((comprehensiveComparative lower l).isSome ↔
        (2 ≤ l.length ∧ 0 < (if lower then mn else mx) ∧
          20 < |((if lower then mx else mn) - (if lower then mn else mx)) /
            (if lower then mn else mx)| * 100))) ∧
    (∀ (lower : Bool) (l : List (String × ℚ)) (f : CompFinding),
      comprehensiveComparative lower l = some f → (l.map Prod.fst).Nodup →
      f.best ≠ f.worst) ∧
    (∀ (l : List (String × ℚ)) (mn mx : ℚ),
      listMin (l.map Prod.snd) = some mn → listMax (l.map Prod.snd) = some mx →
      ((engineCostComparative l).isSome ↔ (2 ≤ l.length ∧ mn * 1.1 < mx))) ∧
    engineCostComparative [(("A"), -10), (("B"), -10)] =
      some ⟨("A"), ("A"), 0⟩ := by
  refine ⟨?_, ?_, ?_, ?_, ?_⟩
  · intro lower p
    constructor <;> rfl
  · intro lower l mn mx hmn hmx
    by_cases h2 : 2 ≤ l.length
    · rw [comprehensiveComparative_eq lower l mn mx hmn hmx h2]
      by_cases hb : 0 < (if lower then mn else mx) <;>
        by_cases hg : 20 < |((if lower then mx else mn) - (if lower then mn else mx)) /
          (if lower then mn else mx)| * 100 <;>
        simp [hb, hg, h2]
    · have hlt : l.length < 2 := by omega
      unfold comprehensiveComparative
      rw [if_pos hlt]
      simp [h2]
  · intro lower l f hf hnd
    have h2 : 2 ≤ l.length := by
      by_contra h2
      have hlt : l.length < 2 := by omega
      unfold comprehensiveComparative at hf
      rw [if_pos hlt] at hf
      exact Option.noConfusion hf
    obtain ⟨mn, hmn⟩ : ∃ mn, listMin (l.map Prod.snd) = some mn := by
      cases hl : l.map Prod.snd with
      | nil =>
        cases l with
        | nil => simp at h2
        | cons a t => simp at hl
      | cons a t => exact ⟨minOpt a (listMin t), rfl⟩
    obtain ⟨mx, hmx⟩ : ∃ mx, listMax (l.map Prod.snd) = some mx := by
      cases hl : l.map Prod.snd with
      | nil =>
        cases l with
        | nil => simp at h2
        | cons a t => simp at hl
      | cons a t => exact ⟨maxOpt a (listMax t), rfl⟩
    rw [comprehensiveComparative_eq lower l mn mx hmn hmx h2] at hf
    by_cases hb : 0 < (if lower then mn else mx)
    · rw [if_pos hb] at hf
      by_cases hg : 20 < |((if lower then mx else mn) - (if lower then mn else mx)) /
          (if lower then mn else mx)| * 100
      · rw [if_pos hg] at hf
        have hval : (if lower then mx else mn) ≠ (if lower then mn else mx) := by
          intro heq
          rw [heq] at hg
          simp at hg
          linarith
        obtain ⟨pb, hpb, hpbv, hpbn⟩ := firstWithVal_spec l (if lower then mn else mx)
          (by by_cases hL : lower = true
              · rw [if_pos hL]; exact listMin_mem _ _ hmn
              · rw [if_neg hL]; exact listMax_mem _ _ hmx)
        obtain ⟨pw, hpw, hpwv, hpwn⟩ := firstWithVal_spec l (if lower then mx else mn)
          (by by_cases hL : lower = true
              · rw [if_pos hL]; exact listMax_mem _ _ hmx
              · rw [if_neg hL]; exact listMin_mem _ _ hmn)
        injection hf with hAf
        rw [← hAf]
        show firstWithVal l (if lower then mn else mx) ≠
          firstWithVal l (if lower then mx else mn)
        rw [hpbn, hpwn]
        intro hnames
        have hpe : pb = pw := List.inj_on_of_nodup_map hnd hpb hpw hnames
        exact hval (hpwv.symm.trans (hpe ▸ hpbv))
      · rw [if_neg hg] at hf
        exact Option.noConfusion hf
    · rw [if_neg hb] at hf
      exact Option.noConfusion hf
  · intro l mn mx hmn hmx
    by_cases h2 : 2 ≤ l.length
    · rw [engineCostComparative_eq l mn mx hmn hmx h2]
      by_cases hg : mn * 1.1 < mx <;> simp [hg, h2]
    · have hlt : l.length < 2 := by omega
      unfold engineCostComparative
      rw [if_pos hlt]
      simp [h2]
  · have hmn : listMin ([(("A"), (-10 : ℚ)), (("B"), -10)].map Prod.snd)
        = some (-10) := by
      norm_num [listMin, minOpt, min_def]
    have hmx : listMax ([(("A"), (-10 : ℚ)), (("B"), -10)].map Prod.snd)
        = some (-10) := by
      norm_num [listMax, maxOpt, max_def]
    rw [engineCostComparative_eq _ _ _ hmn hmx (by norm_num)]
    norm_num [firstWithVal]

/-- Witness for c8_comparative_amended: with costs A = 10, B = 1 the emitted
Finding names B best and A worst, which are distinct. -/
theorem c8_comparative_amended_witness :
    comprehensiveComparative true [(("A"), 10), (("B"), 1)] =
      some ⟨("B"), ("A"), 900⟩ ∧ (("B") : String) ≠ ("A") := by
  have hmn : listMin ([(("A"), 10), (("B"), 1)].map Prod.snd) = some 1 := by
    norm_num [listMin, minOpt, min_def]
  have hmx : listMax ([(("A"), 10), (("B"), 1)].map Prod.snd) = some 10 := by
    norm_num [listMax, maxOpt, max_def]
  have hc : comprehensiveComparative true [(("A"), 10), (("B"), 1)] =
      some ⟨("B"), ("A"), 900⟩ := by
    rw [comprehensiveComparative_eq true _ 1 10 hmn hmx (by norm_num)]
    norm_num [firstWithVal]
  exact ⟨hc, c8_comparative_amended.2.2.1 true [(("A"), 10), (("B"), 1)]
    ⟨("B"), ("A"), 900⟩ hc (by simp)⟩

theorem firstDedupAux_mem (l : List String) :
    ∀ (seen : List String) (x : String),
      x ∈ firstDedupAux l seen ↔ (x ∈ l ∧ x ∉ seen) := by
  induction l with
  | nil => intro seen x; simp [firstDedupAux]
  | cons a t ih =>
    intro seen x
    by_cases ha : a ∈ seen
    · rw [firstDedupAux, if_pos ha, ih seen x]
      constructor
      · rintro ⟨hx, hs⟩
        exact ⟨List.mem_cons_of_mem a hx, hs⟩
      · rintro ⟨hx, hs⟩
        rcases List.mem_cons.mp hx with rfl | hx2
        · exact absurd ha hs
        · exact ⟨hx2, hs⟩
    · rw [firstDedupAux, if_neg ha]
      constructor
      · intro hx
        rcases List.mem_cons.mp hx with rfl | hx2
        · exact ⟨List.mem_cons_self _ _, ha⟩
        · obtain ⟨h1, h2⟩ := (ih (a :: seen) x).mp hx2
          exact ⟨List.mem_cons_of_mem a h1,
            fun hs => h2 (List.mem_cons_of_mem a hs)⟩
      · rintro ⟨hx, hs⟩
        rcases List.mem_cons.mp hx with rfl | hx2
        · exact List.mem_cons_self _ _
        · by_cases hxa : x = a
          · subst hxa
            exact List.mem_cons_self _ _
          · refine List.mem_cons_of_mem a ((ih (a :: seen) x).mpr ⟨hx2, ?_⟩)
            intro hmem
            rcases List.mem_cons.mp hmem with h | h
            · exact hxa h
            · exact hs h

theorem firstDedupAux_nodup (l : List String) :
    ∀ seen : List String, (firstDedupAux l seen).Nodup := by
  induction l with
  | nil => intro seen; simp [firstDedupAux]
  | cons a t ih =>
    intro seen
    by_cases ha : a ∈ seen
    · rw [firstDedupAux, if_pos ha]
      exact ih seen
    · rw [firstDedupAux, if_neg ha]
      refine List.nodup_cons.mpr ⟨?_, ih (a :: seen)⟩
      intro hmem
      exact ((firstDedupAux_mem t (a :: seen) a).mp hmem).2 (List.mem_cons_self a seen)

theorem countEq_cons (y : Insight) (rest : List Insight) (v : Insight) :
    countEq (y :: rest) v = (if y = v then 1 else 0) + countEq rest v := by
  simp only [countEq, List.filter_cons]
  by_cases h : y = v
  · simp [h]
    omega
  · simp [h]

theorem countEq_append (l1 l2 : List Insight) (v : Insight) :
    countEq (l1 ++ l2) v = countEq l1 v + countEq l2 v := by
  simp [countEq, List.filter_append]

theorem countEq_eq_zero (l : List Insight) (v : Insight)
    (h : ∀ y ∈ l, y ≠ v) : countEq l v = 0 := by
  induction l with
  | nil => rfl
  | cons y rest ih =>
    rw [countEq_cons, if_neg (h y (List.mem_cons_self y rest))]
    simpa using ih (fun z hz => h z (List.mem_cons_of_mem y hz))

theorem criticalFor_some (l : List Insight) (x : String) (y : Insight)
    (h : criticalFor l x = some y) : y = syntheticCritical x := by
  unfold criticalFor at h
  split_ifs at h
  exact (Option.some.inj h).symm

theorem syntheticCritical_inj {x y : String}
    (h : syntheticCritical x = syntheticCritical y) : x = y := by
  simpa [syntheticCritical] using h

theorem countEq_filterMap_criticalFor (l : List Insight) (f : String)
    (hf : ¬ f = ("General")) (hc : 2 ≤ countHighFor l f) :
    ∀ ls : List String, ls.Nodup → f ∈ ls →
      countEq (ls.filterMap (criticalFor l)) (syntheticCritical f) = 1 := by
  intro ls
  induction ls with
  | nil => intro _ hmem; simp at hmem
  | cons a t ih =>
    intro hnd hmem
    by_cases haf : a = f
    · subst haf
      have hsome : criticalFor l a = some (syntheticCritical a) := if_pos ⟨hf, hc⟩
      rw [List.filterMap_cons, hsome]
      show countEq (syntheticCritical a :: List.filterMap (criticalFor l) t)
        (syntheticCritical a) = 1
      have hat : a ∉ t := (List.nodup_cons.mp hnd).1
      have h0 : countEq (t.filterMap (criticalFor l)) (syntheticCritical a) = 0 := by
        apply countEq_eq_zero
        intro y hy hcon
        obtain ⟨x, hx, hxy⟩ := List.mem_filterMap.mp hy
        have hyx : y = syntheticCritical x := criticalFor_some l x y hxy
        have hxa : x = a := syntheticCritical_inj (hyx ▸ hcon)
        exact hat (hxa ▸ hx)
      rw [countEq_cons, if_pos rfl, h0]
    · have hmemt : f ∈ t := by
        rcases List.mem_cons.mp hmem with rfl | h
        · exact absurd rfl haf
        · exact h
      have hndt : t.Nodup := (List.nodup_cons.mp hnd).2
      cases hga : criticalFor l a with
      | none =>
        rw [List.filterMap_cons, hga]
        show countEq (List.filterMap (criticalFor l) t) (syntheticCritical f) = 1
        exact ih hndt hmemt
      | some y =>
        rw [List.filterMap_cons, hga]
        show countEq (y :: List.filterMap (criticalFor l) t) (syntheticCritical f) = 1
        have hyne : y ≠ syntheticCritical f := by
          intro hcon
          exact haf (syntheticCritical_inj ((criticalFor_some l a y hga) ▸ hcon))
        rw [countEq_cons, if_neg hyne, ih hndt hmemt]

theorem countEq_criticalAdditions (l : List Insight) (f : String)
    (hf : ¬ f = ("General")) (hc : 2 ≤ countHighFor l f) :
    countEq (criticalAdditions l) (syntheticCritical f) = 1 := by
  have hmem : f ∈ firstDedup (highKeys l) := by
    obtain ⟨i, hi⟩ : ∃ i, i ∈ (l.filter isHighSeverity).filter
        (fun i => decide (furnKey i = f)) := by
      cases hfl : (l.filter isHighSeverity).filter (fun i => decide (furnKey i = f)) with
      | nil =>
        unfold countHighFor at hc
        rw [hfl] at hc
        simp at hc
      | cons a t => exact ⟨a, List.mem_cons_self _ _⟩
    have hi2 := List.mem_filter.mp hi
    have hkey : furnKey i = f := by simpa using hi2.2
    have hhk : f ∈ highKeys l := List.mem_map.mpr ⟨i, hi2.1, hkey⟩
    exact (firstDedupAux_mem (highKeys l) [] f).mpr ⟨hhk, by simp⟩
  exact countEq_filterMap_criticalFor l f hf hc _ (firstDedupAux_nodup _ []) hmem

/-- C9. When a furnace accumulates at least two high-severity insights in
one run, the categorization step appends exactly one synthetic
"multiple critical issues" insight for it — category critical, severity
high, referencing that furnace — while keeping every original insight
(the original list is a sublist of the output). -/
theorem c9_multiple_critical (l : List Insight) (f : String)
    (hf : f ≠ ("General")) (hc : 2 ≤ countHighFor l f) :
    countEq (categorizeInsights l) (syntheticCritical f)
      = countEq l (syntheticCritical f) + 1 ∧
    List.Sublist l (categorizeInsights l) ∧
    (syntheticCritical f).category = ("critical") ∧
    (syntheticCritical f).severity = ("high") ∧
    (syntheticCritical f).furnace = some f := by
  refine ⟨?_, List.sublist_append_left l _, rfl, rfl, rfl⟩
  rw [categorizeInsights, countEq_append, countEq_criticalAdditions l f hf hc]

/-- Witness for c9_multiple_critical: a furnace F1 with two high-severity
insights receives exactly one synthetic critical insight. -/
theorem c9_multiple_critical_witness :
    (("F1") : String) ≠ ("General") ∧
    2 ≤ countHighFor
      [⟨("cost"), ("high"), some ("F1")⟩, ⟨("power"), ("high"), some ("F1")⟩] ("F1") ∧
    countEq (categorizeInsights
        [⟨("cost"), ("high"), some ("F1")⟩, ⟨("power"), ("high"), some ("F1")⟩])
        (syntheticCritical ("F1"))
      = countEq [⟨("cost"), ("high"), some ("F1")⟩, ⟨("power"), ("high"), some ("F1")⟩]
          (syntheticCritical ("F1")) + 1 := by
  refine ⟨by decide, by decide, ?_⟩
  exact (c9_multiple_critical _ _ (by decide) (by decide)).1

end ForgeSense
